import Mathlib

/-!
Verification of the lab2 conversion-pipeline subsystem of tmps-labs
(Go source under lab2/domain): the format model, the CSV reader used by the
CSV-to-JSON converter, the converter implementations, the converter registry
and factory, the per-key converter pool, the pipeline builder and the
pipeline executor, embedded shallowly as executable Lean functions, together
with theorems settling the spec claims about them.

Where the repository history keeps two variants of a component (a per-key
pool next to a single-channel pool; a converter file next to an older
monolithic factory file), the embedding follows the variant in the dedicated
current file, which is also the variant the spec text describes: the per-key
pool, the CSV-to-JSON converter with an explicit empty-array branch, and the
XML-to-YAML converter that parses XML with the mxj library.

Byte slices are modelled as String (all payloads in this program are text);
Go errors are modelled as their message strings; the third-party mxj, yaml
and encoding libraries are modelled by executable Lean functions written to
the behavior the converters rely on, as the comments at each one state.
-/

set_option autoImplicit false

namespace TmpsLab2

/-- FileFormat mirrors models.FileFormat, a Go string type; the zero value
is the empty string. -/
abbrev FileFormat := String

def FormatCSV : FileFormat := "csv"
def FormatJSON : FileFormat := "json"
def FormatXML : FileFormat := "xml"
def FormatYAML : FileFormat := "yaml"

/-- ConversionResult mirrors models.ConversionResult: Data is the payload
(nil modelled as the empty string), Format the produced format (zero value
empty), Error the Go error message when the conversion failed. -/
structure ConversionResult where
  data : String
  format : FileFormat
  error : Option String
deriving DecidableEq, Repr

/-- ConversionOptions mirrors models.ConversionOptions. -/
structure ConversionOptions where
  indent : Bool := false
  prettyPrint : Bool := false
  headers : List String := []
  saveIntermediarySteps : Bool := false
deriving DecidableEq, Repr

/-- ConversionStep mirrors models.ConversionStep (fields From, To). -/
structure ConversionStep where
  fromFmt : FileFormat
  toFmt : FileFormat
deriving DecidableEq, Repr

/-- Pipeline mirrors models.Pipeline. -/
structure Pipeline where
  steps : List ConversionStep
  options : ConversionOptions
  inputPath : String
  outputPath : String
deriving DecidableEq, Repr

/-- PipelineResult mirrors models.PipelineResult; Duration is int64
nanoseconds, zero until assigned. -/
structure PipelineResult where
  success : Bool
  results : List ConversionResult
  error : Option String
  duration : Int
deriving DecidableEq, Repr

/-! ## CSV reading

Model of Go encoding/csv with the default configuration the converter uses:
comma separator, no lazy quotes, FieldsPerRecord = 0 so the first record
fixes the field count every later record must match. Lines end at a newline
or at a carriage return followed by a newline; blank lines are skipped; a
quoted field may span lines, doubles its quotes to escape them, and must be
followed by a separator, a line end or the end of input. The reader is
written with a fuel argument larger than the input so that every run on a
real input terminates inside the fuel. -/

inductive CSVErr where
  | bareQuote
  | quoteErr
  | fieldCount
deriving DecidableEq, Repr

/-- Message text of the Go encoding/csv error values. -/
def csvErrMsg : CSVErr → String
  | .bareQuote => "bare \" in non-quoted field"
  | .quoteErr => "extraneous or missing \" in quoted-field"
  | .fieldCount => "wrong number of fields"

/-- Interior of a quoted field, after the opening quote: returns the field
text, the rest of the input, whether the field ended its record, and whether
the input itself ended. -/
def parseQuotedField : Nat → List Char → List Char →
    Except CSVErr (String × List Char × Bool × Bool)
  | 0, _, _ => .error .quoteErr
  | _ + 1, _, [] => .error .quoteErr
  | f + 1, acc, '"' :: rest =>
    match rest with
    | '"' :: rest2 => parseQuotedField f (acc ++ ['"']) rest2
    | ',' :: rest2 => .ok (String.mk acc, rest2, false, false)
    | '\n' :: rest2 => .ok (String.mk acc, rest2, true, false)
    | '\r' :: '\n' :: rest2 => .ok (String.mk acc, rest2, true, false)
    | [] => .ok (String.mk acc, [], true, true)
    | _ => .error .quoteErr
  | f + 1, acc, '\r' :: '\n' :: rest => parseQuotedField f (acc ++ ['\n']) rest
  | f + 1, acc, c :: rest => parseQuotedField f (acc ++ [c]) rest

/-- Unquoted field: runs to a comma, a line end or the end of input; a quote
inside it is the bare-quote error. -/
def parseBareField : Nat → List Char → List Char →
    Except CSVErr (String × List Char × Bool × Bool)
  | 0, _, _ => .error .bareQuote
  | _ + 1, acc, [] => .ok (String.mk acc, [], true, true)
  | _ + 1, acc, ',' :: rest => .ok (String.mk acc, rest, false, false)
  | _ + 1, acc, '\n' :: rest => .ok (String.mk acc, rest, true, false)
  | _ + 1, acc, '\r' :: '\n' :: rest => .ok (String.mk acc, rest, true, false)
  | _ + 1, _, '"' :: _ => .error .bareQuote
  | f + 1, acc, c :: rest => parseBareField f (acc ++ [c]) rest

/-- One field: quoted when it opens with a quote, bare otherwise. -/
def parseFieldStart (f : Nat) : List Char → Except CSVErr (String × List Char × Bool × Bool)
  | '"' :: rest => parseQuotedField f [] rest
  | input => parseBareField f [] input

/-- One record: fields until the line or input ends. -/
def parseRecord : Nat → List String → List Char →
    Except CSVErr (List String × List Char × Bool)
  | 0, _, _ => .error .quoteErr
  | f + 1, acc, input =>
    match parseFieldStart (f + 1) input with
    | .error e => .error e
    | .ok (fld, rest, endRec, endInp) =>
      if endRec then .ok (acc ++ [fld], rest, endInp)
      else parseRecord f (acc ++ [fld]) rest

/-- All records, blank lines skipped. -/
def parseRecordsAux : Nat → List (List String) → List Char →
    Except CSVErr (List (List String))
  | 0, _, _ => .error .quoteErr
  | _ + 1, acc, [] => .ok acc
  | f + 1, acc, '\n' :: rest => parseRecordsAux f acc rest
  | f + 1, acc, '\r' :: '\n' :: rest => parseRecordsAux f acc rest
  | f + 1, acc, input =>
    match parseRecord (f + 1) [] input with
    | .error e => .error e
    | .ok (rec, rest, _) => parseRecordsAux f (acc ++ [rec]) rest

/-- Records of a CSV payload before the field-count check (the records a
reader configured with FieldsPerRecord = -1 would deliver). -/
def csvRecords (s : String) : Except CSVErr (List (List String)) :=
  parseRecordsAux (2 * s.length + 8) [] s.data

/-- Model of csv.Reader.ReadAll with the default FieldsPerRecord = 0: the
first record fixes the field count and any record of another length is the
wrong-number-of-fields error. -/
def csvReadAll (s : String) : Except CSVErr (List (List String)) :=
  match csvRecords s with
  | .error e => .error e
  | .ok [] => .ok []
  | .ok (r :: rs) =>
    if rs.all (fun x => x.length = r.length) then .ok (r :: rs)
    else .error .fieldCount

/-! ## JSON

Model of the parts of Go encoding/json the converters use: a generic value
(what decoding into interface yields), MarshalIndent of a slice of
string-to-string maps with the converter arguments, Unmarshal and
Decoder.Decode of a generic value, and the fmt %v rendering the
JSON-to-CSV converter applies to decoded cell values. Numbers keep their
source lexeme (an abstraction of the float64 decoding, which no claim
depends on); maps keep key order of first appearance and marshal and print
with sorted keys, as encoding/json and fmt do. -/

inductive JSONValue where
  | nullV
  | boolV (b : Bool)
  | numV (lexeme : String)
  | strV (s : String)
  | arrV (items : List JSONValue)
  | objV (fields : List (String × JSONValue))
deriving Repr

def hexDigitChar (n : Nat) : String :=
  String.singleton (String.get "0123456789abcdef" (String.Pos.mk (n % 16)))

/-- Escape one character as encoding/json does inside a string literal,
HTML escaping included. -/
def jsonEscapeChar (c : Char) : String :=
  if c = '"' then "\\\""
  else if c = '\\' then "\\\\"
  else if c = '\n' then "\\n"
  else if c = '\r' then "\\r"
  else if c = '\t' then "\\t"
  else if c = '<' then "\\u003c"
  else if c = '>' then "\\u003e"
  else if c = '&' then "\\u0026"
  else if c.toNat < 32 then
    "\\u00" ++ hexDigitChar (c.toNat / 16) ++ hexDigitChar (c.toNat % 16)
  else String.singleton c

def jsonQuote (s : String) : String :=
  "\"" ++ String.join (s.data.map jsonEscapeChar) ++ "\""

/-- A Go map with string keys, as an association list keeping insertion
order: assigning to a present key replaces its value in place, assigning to
an absent one appends. -/
def alistSet {α : Type} : List (String × α) → String → α → List (String × α)
  | [], k, v => [(k, v)]
  | (k0, v0) :: rest, k, v =>
    if k0 = k then (k, v) :: rest else (k0, v0) :: alistSet rest k v

/-- Map read: the value of the first entry with the key. -/
def alistGet? {α : Type} : List (String × α) → String → Option α
  | [], _ => none
  | (k0, v0) :: rest, k => if k0 = k then some v0 else alistGet? rest k


def insertSortedBy (key : String) (p : String × String) :
    List (String × String) → List (String × String)
  | [] => [p]
  | q :: rest => if key ≤ q.1 then p :: q :: rest else q :: insertSortedBy key p rest

/-- Entries of a map sorted by key, the order encoding/json and fmt emit map
entries in. -/
def sortedEntries (m : List (String × String)) : List (String × String) :=
  m.foldl (fun acc p => insertSortedBy p.1 p acc) []

def joinSep (sep : String) : List String → String
  | [] => ""
  | x :: xs => xs.foldl (fun a b => a ++ sep ++ b) x

/-- MarshalIndent of one map[string]string element at nesting depth one with
empty line prefix and two-space indent. -/
def marshalRowIndent (row : List (String × String)) : String :=
  match sortedEntries row with
  | [] => "\x7b\x7d"
  | entries =>
    "\x7b\n" ++
      joinSep ",\n" (entries.map fun p => "    " ++ jsonQuote p.1 ++ ": " ++ jsonQuote p.2) ++
      "\n  \x7d"

/-- MarshalIndent of a whole slice of maps; a nil slice (the Go zero value,
which the converter leaves when there are no data records) marshals to
null. -/
def marshalRowsIndent (rows : List (List (String × String))) : String :=
  if rows.isEmpty then "null"
  else "[\n" ++ joinSep ",\n" (rows.map fun r => "  " ++ marshalRowIndent r) ++ "\n]"

def jsonWs : List Char := [' ', '\t', '\n', '\r']

def skipWs (cs : List Char) : List Char := cs.dropWhile (fun c => c ∈ jsonWs)

def isHexDigitChar (c : Char) : Bool :=
  c.isDigit ∨ ('a' ≤ c ∧ c ≤ 'f') ∨ ('A' ≤ c ∧ c ≤ 'F')

/-- Body of a JSON string literal after the opening quote. Unicode escapes
decode their hex code; surrogate pairing is out of scope of every claim. -/
def parseJSONString : Nat → List Char → List Char → Except String (String × List Char)
  | 0, _, _ => .error "unexpected end of JSON input"
  | _ + 1, _, [] => .error "unexpected end of JSON input"
  | f + 1, acc, c :: rest =>
    if c = '"' then .ok (String.mk acc, rest)
    else if c = '\\' then
      match rest with
      | [] => .error "unexpected end of JSON input"
      | e :: rest2 =>
        if e = 'n' then parseJSONString f (acc ++ ['\n']) rest2
        else if e = 't' then parseJSONString f (acc ++ ['\t']) rest2
        else if e = 'r' then parseJSONString f (acc ++ ['\r']) rest2
        else if e = 'b' then parseJSONString f (acc ++ ['\x08']) rest2
        else if e = 'f' then parseJSONString f (acc ++ ['\x0c']) rest2
        else if e = '/' ∨ e = '\\' ∨ e = '"' then parseJSONString f (acc ++ [e]) rest2
        else if e = 'u' then
          match rest2 with
          | h1 :: h2 :: h3 :: h4 :: rest3 =>
            if isHexDigitChar h1 ∧ isHexDigitChar h2 ∧ isHexDigitChar h3 ∧ isHexDigitChar h4 then
              let hv : Char → Nat := fun h =>
                if h.isDigit then h.toNat - '0'.toNat
                else if 'a' ≤ h ∧ h ≤ 'f' then h.toNat - 'a'.toNat + 10
                else h.toNat - 'A'.toNat + 10
              let code := ((hv h1 * 16 + hv h2) * 16 + hv h3) * 16 + hv h4
              parseJSONString f (acc ++ [Char.ofNat code]) rest3
            else .error "invalid character in string escape code"
          | _ => .error "unexpected end of JSON input"
        else .error "invalid character in string escape code"
    else parseJSONString f (acc ++ [c]) rest

def numChars : List Char := ['-', '+', '.', 'e', 'E', '0', '1', '2', '3', '4', '5', '6', '7', '8', '9']

/-- Number lexeme: the maximal run of number characters; it must contain a
digit. -/
def parseJSONNumber (cs : List Char) : Except String (String × List Char) :=
  let lex := cs.takeWhile (fun c => c ∈ numChars)
  let rest := cs.dropWhile (fun c => c ∈ numChars)
  if lex.any Char.isDigit then .ok (String.mk lex, rest)
  else .error "invalid character looking for beginning of value"

def expectChars : List Char → List Char → Option (List Char)
  | [], rest => some rest
  | e :: es, c :: rest => if c = e then expectChars es rest else none
  | _ :: _, [] => none

/-- Call states of the JSON value parser: a value, the items of an open
array, or the fields of an open object. One fuel-indexed function covers the
three so that the recursion is structural and reduces inside the kernel. -/
inductive JSONCall where
  | valueC (input : List Char)
  | arrC (acc : List JSONValue) (input : List Char)
  | objC (acc : List (String × JSONValue)) (input : List Char)

/-- One JSON value; whitespace before it is skipped. -/
def parseJSONGo : Nat → JSONCall → Except String (JSONValue × List Char)
  | 0, _ => .error "unexpected end of JSON input"
  | f + 1, .valueC input =>
    match skipWs input with
    | [] => .error "unexpected end of JSON input"
    | c :: rest =>
      if c = 'n' then
        match expectChars ['u', 'l', 'l'] rest with
        | some r => .ok (.nullV, r)
        | none => .error "invalid character looking for beginning of value"
      else if c = 't' then
        match expectChars ['r', 'u', 'e'] rest with
        | some r => .ok (.boolV true, r)
        | none => .error "invalid character looking for beginning of value"
      else if c = 'f' then
        match expectChars ['a', 'l', 's', 'e'] rest with
        | some r => .ok (.boolV false, r)
        | none => .error "invalid character looking for beginning of value"
      else if c = '"' then
        match parseJSONString (rest.length + 1) [] rest with
        | .error e => .error e
        | .ok (s, r) => .ok (.strV s, r)
      else if c = '[' then
        match skipWs rest with
        | ']' :: r => .ok (.arrV [], r)
        | _ => parseJSONGo f (.arrC [] rest)
      else if c = '\x7b' then
        match skipWs rest with
        | '\x7d' :: r => .ok (.objV [], r)
        | _ => parseJSONGo f (.objC [] rest)
      else if c = '-' ∨ c.isDigit then parseJSONNumber (c :: rest) |>.map (fun p => (.numV p.1, p.2))
      else .error "invalid character looking for beginning of value"
  | f + 1, .arrC acc input =>
    -- elements of an array after its opening bracket (or a comma)
    match parseJSONGo f (.valueC input) with
    | .error e => .error e
    | .ok (v, rest) =>
      match skipWs rest with
      | ']' :: r => .ok (.arrV (acc ++ [v]), r)
      | ',' :: r => parseJSONGo f (.arrC (acc ++ [v]) r)
      | _ => .error "invalid character after array element"
  | f + 1, .objC acc input =>
    -- fields of an object after its opening brace (or a comma); a repeated
    -- key keeps the later value in place, as Go map assignment does
    match skipWs input with
    | '"' :: rest =>
      match parseJSONString (rest.length + 1) [] rest with
      | .error e => .error e
      | .ok (k, r1) =>
        match skipWs r1 with
        | ':' :: r2 =>
          match parseJSONGo f (.valueC r2) with
          | .error e => .error e
          | .ok (v, r3) =>
            let acc2 := if acc.any (fun p => p.1 = k)
              then acc.map (fun p => if p.1 = k then (k, v) else p)
              else acc ++ [(k, v)]
            match skipWs r3 with
            | '\x7d' :: r4 => .ok (.objV acc2, r4)
            | ',' :: r4 => parseJSONGo f (.objC acc2 r4)
            | _ => .error "invalid character after object key:value pair"
        | _ => .error "invalid character after object key"
    | _ => .error "invalid character looking for beginning of object key string"

def parseJSONValue (f : Nat) (input : List Char) : Except String (JSONValue × List Char) :=
  parseJSONGo f (.valueC input)

/-- Model of json.Decoder.Decode into a generic value: one value is read and
whatever follows it stays unread. -/
def jsonDecodeValue (s : String) : Except String (JSONValue × String) :=
  (parseJSONValue (s.length + 1) s.data).map fun p => (p.1, String.mk p.2)

/-- Model of json.Unmarshal into a generic value: one value and nothing but
whitespace after it. -/
def jsonUnmarshal (s : String) : Except String JSONValue :=
  match parseJSONValue (s.length + 1) s.data with
  | .error e => .error e
  | .ok (v, rest) =>
    if skipWs rest = [] then .ok v else .error "invalid character after top-level value"

mutual

/-- Rendering fmt %v applies to a value decoded from JSON: strings as
themselves, nil as its angle-bracket form, maps with sorted keys. The
number case keeps the lexeme, abstracting the float64 round-trip. -/
def goSprintV : JSONValue → String
  | .nullV => "<nil>"
  | .boolV b => if b then "true" else "false"
  | .numV lex => lex
  | .strV s => s
  | .arrV items => "[" ++ joinSep " " (goSprintVList items) ++ "]"
  | .objV fields =>
    "map[" ++
      joinSep " " ((sortedEntries (goSprintVFields fields)).map fun p => p.1 ++ ":" ++ p.2) ++
      "]"

def goSprintVList : List JSONValue → List String
  | [] => []
  | v :: vs => goSprintV v :: goSprintVList vs

def goSprintVFields : List (String × JSONValue) → List (String × String)
  | [] => []
  | (k, v) :: fs => (k, goSprintV v) :: goSprintVFields fs

end

/-! ## XML

Model of mxj.NewMapXml, the XML decoding the XML-to-YAML converter uses: a
well-formed document is an optional prologue followed by one root element;
an element has a name, double-quoted attributes and either text or child
elements; every open tag must be closed by a matching close tag; the five
standard character entities are decoded and any other use of an ampersand
is an error, as in encoding/xml. The decoded document becomes a generic
nested mapping: an element with only text becomes that string, otherwise a
map holding one dash-prefixed key per attribute, one key per child element
name (a list when the name repeats), and a text key for mixed content. -/

inductive XMLTree where
  | elem (name : String) (attrs : List (String × String)) (children : List XMLTree)
  | text (s : String)
deriving Repr

def xmlNameChar (c : Char) : Bool :=
  c.isAlpha ∨ c.isDigit ∨ c = '_' ∨ c = '-' ∨ c = '.' ∨ c = ':'

def xmlWs (c : Char) : Bool := c = ' ' ∨ c = '\t' ∨ c = '\n' ∨ c = '\r'

def xmlSkipWs (cs : List Char) : List Char := cs.dropWhile xmlWs

/-- Decode one character entity after an ampersand. -/
def xmlEntity (cs : List Char) : Option (Char × List Char) :=
  match expectChars ['l', 't', ';'] cs with
  | some r => some ('<', r)
  | none =>
  match expectChars ['g', 't', ';'] cs with
  | some r => some ('>', r)
  | none =>
  match expectChars ['a', 'm', 'p', ';'] cs with
  | some r => some ('&', r)
  | none =>
  match expectChars ['q', 'u', 'o', 't', ';'] cs with
  | some r => some ('"', r)
  | none =>
  match expectChars ['a', 'p', 'o', 's', ';'] cs with
  | some r => some ('\'', r)
  | none => none

/-- Text run up to the next angle bracket, entities decoded. -/
def parseXMLText : Nat → List Char → List Char → Except String (String × List Char)
  | 0, acc, cs => .ok (String.mk acc, cs)
  | _ + 1, acc, [] => .ok (String.mk acc, [])
  | f + 1, acc, c :: rest =>
    if c = '<' then .ok (String.mk acc, c :: rest)
    else if c = '&' then
      match xmlEntity rest with
      | some (d, rest2) => parseXMLText f (acc ++ [d]) rest2
      | none => .error "invalid character entity"
    else parseXMLText f (acc ++ [c]) rest

/-- Attribute list of an open tag; stops before the closing bracket. -/
def parseXMLAttrs : Nat → List (String × String) → List Char →
    Except String (List (String × String) × List Char)
  | 0, _, _ => .error "XML syntax error: unexpected end of input"
  | f + 1, acc, input =>
    match xmlSkipWs input with
    | [] => .error "XML syntax error: unexpected end of input"
    | c :: rest =>
      if c = '>' ∨ c = '/' then .ok (acc, c :: rest)
      else
        let name := (c :: rest).takeWhile xmlNameChar
        let r1 := (c :: rest).dropWhile xmlNameChar
        if name.isEmpty then .error "XML syntax error: malformed attribute"
        else
          match xmlSkipWs r1 with
          | '=' :: r2 =>
            match xmlSkipWs r2 with
            | '"' :: r3 =>
              let v := r3.takeWhile (fun d => d ≠ '"')
              match r3.dropWhile (fun d => d ≠ '"') with
              | '"' :: r4 => parseXMLAttrs f (acc ++ [(String.mk name, String.mk v)]) r4
              | _ => .error "XML syntax error: unterminated attribute value"
            | _ => .error "XML syntax error: malformed attribute value"
          | _ => .error "XML syntax error: attribute without value"

/-- Call states of the XML parser: an element, or the content of an open
element. One fuel-indexed function covers both so that the recursion is
structural and reduces inside the kernel. -/
inductive XMLCall where
  | elemC (input : List Char)
  | childrenC (name : String) (attrs : List (String × String)) (acc : List XMLTree)
      (input : List Char)

/-- One element starting at an angle bracket, and the content of an open
element up to and through its matching close tag. -/
def parseXMLGo : Nat → XMLCall → Except String (XMLTree × List Char)
  | 0, _ => .error "XML syntax error: unexpected end of input"
  | f + 1, .elemC input =>
    match input with
    | '<' :: rest =>
      let name := rest.takeWhile xmlNameChar
      let r1 := rest.dropWhile xmlNameChar
      if name.isEmpty then .error "XML syntax error: malformed open tag"
      else
        match parseXMLAttrs (r1.length + 1) [] r1 with
        | .error e => .error e
        | .ok (attrs, r2) =>
          match r2 with
          | '/' :: '>' :: r3 => .ok (.elem (String.mk name) attrs [], r3)
          | '>' :: r3 => parseXMLGo f (.childrenC (String.mk name) attrs [] r3)
          | _ => .error "XML syntax error: malformed open tag"
    | _ => .error "XML syntax error: expected open tag"
  | f + 1, .childrenC name attrs acc input =>
    match input with
    | [] => .error "XML syntax error: unexpected end of input"
    | '<' :: '/' :: rest =>
      let close := rest.takeWhile xmlNameChar
      let r1 := rest.dropWhile xmlNameChar
      if String.mk close = name then
        match xmlSkipWs r1 with
        | '>' :: r2 => .ok (.elem name attrs acc, r2)
        | _ => .error "XML syntax error: malformed close tag"
      else .error ("XML syntax error: element <" ++ name ++ "> closed by </" ++ String.mk close ++ ">")
    | '<' :: rest =>
      match parseXMLGo f (.elemC ('<' :: rest)) with
      | .error e => .error e
      | .ok (child, r1) => parseXMLGo f (.childrenC name attrs (acc ++ [child]) r1)
    | cs =>
      match parseXMLText (cs.length + 1) [] cs with
      | .error e => .error e
      | .ok (t, r1) => parseXMLGo f (.childrenC name attrs (acc ++ [.text t]) r1)

def parseXMLElement (f : Nat) (input : List Char) : Except String (XMLTree × List Char) :=
  parseXMLGo f (.elemC input)

/-- Optional XML prologue: processing instructions and comments before the
root element are skipped. -/
def xmlSkipProlog : Nat → List Char → List Char
  | 0, cs => cs
  | f + 1, cs =>
    match xmlSkipWs cs with
    | '<' :: '?' :: rest =>
      xmlSkipProlog f (dropThroughPIEnd (rest.length + 1) rest)
    | other => other
where
  dropThroughPIEnd : Nat → List Char → List Char
    | 0, cs => cs
    | _ + 1, [] => []
    | _ + 1, '?' :: '>' :: rest => rest
    | f + 1, _ :: rest => dropThroughPIEnd f rest

/-- Whitespace trimmed from both ends. -/
def trimSpace (s : String) : String :=
  String.mk (((s.data.dropWhile xmlWs).reverse.dropWhile xmlWs).reverse)

def xmlTexts : List XMLTree → List String
  | [] => []
  | .text s :: rest => s :: xmlTexts rest
  | .elem _ _ _ :: rest => xmlTexts rest

/-- Distinct names in order of first appearance. -/
def namesInOrder (ps : List (String × JSONValue)) : List String :=
  ps.foldl (fun acc p => if p.1 ∈ acc then acc else acc ++ [p.1]) []

/-- Child elements grouped by name: one key per distinct name, a list value
when the name repeats. -/
def groupPairsByName (ps : List (String × JSONValue)) : List (String × JSONValue) :=
  (namesInOrder ps).map fun n =>
    match (ps.filter (fun p => p.1 = n)).map Prod.snd with
    | [v] => (n, v)
    | vs => (n, .arrV vs)

/-- Call states of the tree-to-mapping conversion: one tree, or a list of
sibling trees; one fuel-indexed function covers both so that the recursion
is structural and reduces inside the kernel. -/
inductive XMLValCall where
  | treeC (t : XMLTree)
  | listC (ts : List XMLTree)

/-- Value an XML element decodes to in the mxj generic mapping, and the
name-value pairs a list of sibling children decodes to. The fuel is spent
one unit per constructor, so any fuel beyond the sizeOf bound changes
nothing. -/
def xmlValGo : Nat → XMLValCall → JSONValue ⊕ List (String × JSONValue)
  | 0, .treeC _ => .inl .nullV
  | 0, .listC _ => .inr []
  | _ + 1, .treeC (.text s) => .inl (.strV s)
  | f + 1, .treeC (.elem _ attrs children) =>
    let textContent := trimSpace (String.join (xmlTexts children))
    let childPairs := match xmlValGo f (.listC children) with
      | .inr l => l
      | .inl _ => []
    if attrs.isEmpty ∧ childPairs.isEmpty then .inl (.strV textContent)
    else
      let attrFields := attrs.map fun p => ("-" ++ p.1, JSONValue.strV p.2)
      let childFields := groupPairsByName childPairs
      let textFields := if textContent = "" then [] else [("#text", JSONValue.strV textContent)]
      .inl (.objV (attrFields ++ childFields ++ textFields))
  | _ + 1, .listC [] => .inr []
  | f + 1, .listC (.text _ :: rest) => xmlValGo f (.listC rest)
  | f + 1, .listC (.elem n a c :: rest) =>
    let v := match xmlValGo f (.treeC (.elem n a c)) with
      | .inl v => v
      | .inr _ => .nullV
    match xmlValGo f (.listC rest) with
    | .inr l => .inr ((n, v) :: l)
    | .inl _ => .inr [(n, v)]

def xmlTreeValue (f : Nat) (t : XMLTree) : JSONValue :=
  match xmlValGo f (.treeC t) with
  | .inl v => v
  | .inr _ => .nullV

/-- Model of mxj.NewMapXml: the prologue is skipped, one root element is
decoded into the generic mapping, content after the root is left unread. -/
def mxjNewMapXml (s : String) : Except String JSONValue :=
  let cs := xmlSkipWs (xmlSkipProlog (s.length + 1) s.data)
  match parseXMLElement (cs.length + 1) cs with
  | .error e => .error e
  | .ok (.elem n a c, _) => .ok (.objV [(n, xmlTreeValue (2 * s.length + 8) (.elem n a c))])
  | .ok (.text _, _) => .error "XML syntax error: expected open tag"

/-! ## YAML

Model of yaml.Marshal of the generic mapping, in block style with two-space
indentation. No claim inspects the produced bytes beyond which value they
serialize, so the renderer is a plain executable serializer. -/

def yamlIndent (n : Nat) : String := String.join (List.replicate n "  ")

mutual

def yamlRender (ind : Nat) : JSONValue → String
  | .nullV => "null"
  | .boolV b => if b then "true" else "false"
  | .numV lex => lex
  | .strV s => s
  | .arrV [] => "[]"
  | .arrV items => joinSep "\n" (yamlRenderItems ind items)
  | .objV [] => "\x7b\x7d"
  | .objV fields => joinSep "\n" (yamlRenderFields ind fields)

def yamlRenderItems (ind : Nat) : List JSONValue → List String
  | [] => []
  | v :: vs =>
    let line :=
      match v with
      | .arrV (_ :: _) => yamlIndent ind ++ "-\n" ++ yamlRender (ind + 1) v
      | .objV (_ :: _) => yamlIndent ind ++ "-\n" ++ yamlRender (ind + 1) v
      | _ => yamlIndent ind ++ "- " ++ yamlRender (ind + 1) v
    line :: yamlRenderItems ind vs

def yamlRenderFields (ind : Nat) : List (String × JSONValue) → List String
  | [] => []
  | (k, v) :: fs =>
    let line :=
      match v with
      | .arrV (_ :: _) => yamlIndent ind ++ k ++ ":\n" ++ yamlRender (ind + 1) v
      | .objV (_ :: _) => yamlIndent ind ++ k ++ ":\n" ++ yamlRender (ind + 1) v
      | _ => yamlIndent ind ++ k ++ ": " ++ yamlRender (ind + 1) v
    line :: yamlRenderFields ind fs

end

/-- Model of yaml.Marshal on the decoded mapping; yaml ends its output with
a newline. -/
def yamlMarshal (v : JSONValue) : String := yamlRender 0 v ++ "\n"

/-- Escape text content for XML serialization. -/
def xmlEscape (s : String) : String :=
  String.join (s.data.map fun c =>
    if c = '<' then "&lt;"
    else if c = '>' then "&gt;"
    else if c = '&' then "&amp;"
    else if c = '"' then "&quot;"
    else String.singleton c)

mutual

/-- One XML element the mxj serializer emits for a map key and value. -/
def mxjRenderElem (ind : Nat) (name : String) : JSONValue → String
  | .nullV => yamlIndent ind ++ "<" ++ name ++ "/>"
  | .boolV b => yamlIndent ind ++ "<" ++ name ++ ">" ++ (if b then "true" else "false") ++ "</" ++ name ++ ">"
  | .numV lex => yamlIndent ind ++ "<" ++ name ++ ">" ++ lex ++ "</" ++ name ++ ">"
  | .strV s => yamlIndent ind ++ "<" ++ name ++ ">" ++ xmlEscape s ++ "</" ++ name ++ ">"
  | .arrV items => joinSep "\n" (mxjRenderList ind name items)
  | .objV [] => yamlIndent ind ++ "<" ++ name ++ "/>"
  | .objV fields =>
    yamlIndent ind ++ "<" ++ name ++ ">\n" ++
      joinSep "\n" (mxjRenderFields (ind + 1) fields) ++
      "\n" ++ yamlIndent ind ++ "</" ++ name ++ ">"

def mxjRenderList (ind : Nat) (name : String) : List JSONValue → List String
  | [] => []
  | v :: vs => mxjRenderElem ind name v :: mxjRenderList ind name vs

def mxjRenderFields (ind : Nat) : List (String × JSONValue) → List String
  | [] => []
  | (k, v) :: fs => mxjRenderElem ind k v :: mxjRenderFields ind fs

end

/-- Model of mxj XmlIndent with empty prefix and two-space indent on the
map holding the decoded JSON value under the root key. -/
def mxjXmlIndentRoot (v : JSONValue) : String := mxjRenderElem 0 "root" v

/-! ## Converter implementations

Translations of the four converter files. The repository history also keeps
an older monolithic factory file with earlier versions of some converters;
the embedding follows the current dedicated files, the variant the spec
describes. MarshalIndent of maps of strings and the mxj XML serializer
cannot fail on the values these converters build, so their dead error
branches have no model. -/

/-- Row a CSV record becomes: each cell is assigned to the header of its
index; a cell beyond the header row is dropped. -/
def buildRow (headers record : List String) : List (String × String) :=
  record.enum.foldl
    (fun row iv => if iv.1 < headers.length then alistSet row (headers.getD iv.1 "") iv.2 else row)
    []

/-- CSVToJSONConverter.Convert. -/
def csvToJSONConvert (input : String) (fromFmt toFmt : FileFormat) : ConversionResult :=
  if fromFmt ≠ FormatCSV ∨ toFmt ≠ FormatJSON then
    ⟨"", "", some ("unsupported conversion: " ++ fromFmt ++ " to " ++ toFmt)⟩
  else
    match csvReadAll input with
    | .error e => ⟨"", "", some ("failed to read CSV: " ++ csvErrMsg e)⟩
    | .ok [] => ⟨"[]", FormatJSON, none⟩
    | .ok (headers :: rest) =>
      let jsonData := rest.map (fun record => buildRow headers record)
      ⟨marshalRowsIndent jsonData, FormatJSON, none⟩

/-- JSONToXMLConverter.Convert. -/
def jsonToXMLConvert (input : String) (fromFmt toFmt : FileFormat) : ConversionResult :=
  if fromFmt ≠ FormatJSON ∨ toFmt ≠ FormatXML then
    ⟨"", "", some ("unsupported conversion: " ++ fromFmt ++ " to " ++ toFmt)⟩
  else
    match jsonUnmarshal input with
    | .error e => ⟨"", "", some ("failed to parse JSON: " ++ e)⟩
    | .ok v => ⟨mxjXmlIndentRoot v, FormatXML, none⟩

/-- XMLToYAMLConverter.Convert. Reading the in-memory input cannot fail, so
the io.ReadAll error branch has no model. -/
def xmlToYAMLConvert (input : String) (fromFmt toFmt : FileFormat) : ConversionResult :=
  if fromFmt ≠ FormatXML ∨ toFmt ≠ FormatYAML then
    ⟨"", "", some ("unsupported conversion: " ++ fromFmt ++ " to " ++ toFmt)⟩
  else
    match mxjNewMapXml input with
    | .error e => ⟨"", "", some ("failed to parse XML: " ++ e)⟩
    | .ok m => ⟨yamlMarshal m, FormatYAML, none⟩

/-- Decoding a generic JSON value into a Go slice of string-keyed maps: the
value must be null (the nil slice) or an array whose elements are objects or
null. -/
def decodeMapsArray : JSONValue → Except String (List (List (String × JSONValue)))
  | .nullV => .ok []
  | .arrV items => decodeItems items
  | _ => .error "json: cannot unmarshal value into Go value of type []map[string]interface \x7b\x7d"
where
  decodeItems : List JSONValue → Except String (List (List (String × JSONValue)))
    | [] => .ok []
    | .objV fs :: rest => (decodeItems rest).map (fs :: ·)
    | .nullV :: rest => (decodeItems rest).map ([] :: ·)
    | _ :: _ => .error "json: cannot unmarshal value into Go value of type map[string]interface \x7b\x7d"

/-- JSONToCSVConverter.Convert. Go iterates the first row map in undefined
order to pick the header columns; the model keeps the key order of first
appearance in the JSON text. -/
def jsonToCSVConvert (input : String) (fromFmt toFmt : FileFormat) : ConversionResult :=
  if fromFmt ≠ FormatJSON ∨ toFmt ≠ FormatCSV then
    ⟨"", "", some "unsupported conversion"⟩
  else
    match jsonDecodeValue input with
    | .error e => ⟨"", "", some e⟩
    | .ok (v, _) =>
      match decodeMapsArray v with
      | .error e => ⟨"", "", some e⟩
      | .ok data =>
        match data with
        | [] => ⟨"", FormatCSV, none⟩
        | first :: _ =>
          let headers := first.map Prod.fst
          let csvLines :=
            joinSep "," headers ::
              data.map (fun row =>
                joinSep "," (headers.map fun h =>
                  match alistGet? row h with
                  | some val => goSprintV val
                  | none => ""))
          ⟨joinSep "\n" csvLines, FormatCSV, none⟩

/-! ## Converter registry and factory

The four converter implementations register themselves under their
from-dash-to key at process start; CreateConverter looks the key up and
fails for an absent one. An instance is identified by which implementation
it is, which also fixes the key it was created under. -/

inductive ConverterKind where
  | csvJson
  | jsonXml
  | xmlYaml
  | jsonCsv
deriving DecidableEq, Repr

/-- Convert method dispatch over the implementations. -/
def ConverterKind.convert : ConverterKind → String → FileFormat → FileFormat → ConversionResult
  | .csvJson => csvToJSONConvert
  | .jsonXml => jsonToXMLConvert
  | .xmlYaml => xmlToYAMLConvert
  | .jsonCsv => jsonToCSVConvert

/-- SupportsFormat method dispatch over the implementations. -/
def ConverterKind.supportsFormat : ConverterKind → FileFormat → Bool
  | .csvJson, f => f = FormatCSV ∨ f = FormatJSON
  | .jsonXml, f => f = FormatJSON ∨ f = FormatXML
  | .xmlYaml, f => f = FormatXML ∨ f = FormatYAML
  | .jsonCsv, f => f = FormatJSON ∨ f = FormatCSV

/-- Registry key each implementation registers itself under. -/
def ConverterKind.key : ConverterKind → String
  | .csvJson => "csv-json"
  | .jsonXml => "json-xml"
  | .xmlYaml => "xml-yaml"
  | .jsonCsv => "json-csv"

/-- State of the process-wide registry after the init functions ran. -/
def converterRegistry : List (String × ConverterKind) :=
  [("csv-json", .csvJson), ("json-xml", .jsonXml), ("xml-yaml", .xmlYaml), ("json-csv", .jsonCsv)]

/-- DefaultConverterFactory.CreateConverter. -/
def createConverter (formatType : String) : Except String ConverterKind :=
  match alistGet? converterRegistry formatType with
  | some c => .ok c
  | none => .error ("unsupported converter type: " ++ formatType)

/-! ## Converter pool

Translation of the per-key pool variant (the one the spec follows; the
history also keeps a single-channel variant). A buffered channel of capacity
maxSize is a queue: a non-blocking receive takes the head when one exists,
a non-blocking send appends when the length is under maxSize. Go iterates
the pools map in unspecified order inside Put; the model iterates in key
insertion order, and every conclusion drawn below from a Put that scans more
than one pool is arranged to hold under every iteration order. Sequential
runs model the pool: within one Get no other goroutine intervenes, so the
second receive attempt of the Go code is reached with the queue still
empty. -/

structure ConverterPool where
  pools : List (String × List ConverterKind)
  created : List (String × Nat)
  maxSize : Nat
deriving DecidableEq, Repr

/-- NewConverterPool. -/
def newConverterPool (maxSize : Nat) : ConverterPool := ⟨[], [], maxSize⟩

/-- Idle instances currently pooled under a key. -/
def poolQueueOf (p : ConverterPool) (t : String) : List ConverterKind :=
  (alistGet? p.pools t).getD []

/-- Instances counted as created under a key. -/
def createdOf (p : ConverterPool) (t : String) : Nat :=
  (alistGet? p.created t).getD 0

/-- Locked first phase of ConverterPool.Get: an unseen key is registered
with an empty channel and a zeroed created counter. -/
def ConverterPool.ensureKey (p : ConverterPool) (t : String) : ConverterPool :=
  if (alistGet? p.pools t).isNone then
    { p with pools := p.pools ++ [(t, [])], created := alistSet p.created t 0 }
  else p

/-- ConverterPool.Get: register the key on first sight; take an idle
instance when one is pooled; otherwise create and count one while under the
cap; otherwise re-check the queue and fall back to an uncounted temporary
instance from the factory. -/
def ConverterPool.get (p : ConverterPool) (t : String) :
    Except String ConverterKind × ConverterPool :=
  let p1 := p.ensureKey t
  match (alistGet? p1.pools t).getD [] with
  | c :: restQ => (.ok c, { p1 with pools := alistSet p1.pools t restQ })
  | [] =>
    if createdOf p1 t < p1.maxSize then
      match createConverter t with
      | .error e => (.error e, p1)
      | .ok c => (.ok c, { p1 with created := alistSet p1.created t (createdOf p1 t + 1) })
    else
      match (alistGet? p1.pools t).getD [] with
      | c :: restQ => (.ok c, { p1 with pools := alistSet p1.pools t restQ })
      | [] => (createConverter t, p1)

/-- Pools scanned in order: the instance is appended to the first queue with
room; none answers that every queue is full. -/
def putIntoFirst (maxSize : Nat) (c : ConverterKind) :
    List (String × List ConverterKind) → Option (List (String × List ConverterKind))
  | [] => none
  | (k, q) :: rest =>
    if q.length < maxSize then some ((k, q ++ [c]) :: rest)
    else
      match putIntoFirst maxSize c rest with
      | some rest2 => some ((k, q) :: rest2)
      | none => none

/-- ConverterPool.Put: scan the pools for one with room and drop the
instance when all are full. -/
def ConverterPool.put (p : ConverterPool) (c : ConverterKind) : ConverterPool :=
  match putIntoFirst p.maxSize c p.pools with
  | some ps => { p with pools := ps }
  | none => p

/-- ConverterPool.Size: total idle count across keys. -/
def ConverterPool.size (p : ConverterPool) : Nat :=
  (p.pools.map (fun kq => kq.2.length)).sum

/-- ConverterPool.Created: total created count across keys. -/
def ConverterPool.createdTotal (p : ConverterPool) : Nat :=
  (p.created.map Prod.snd).sum

/-- One client call against the pool; a sequence of these is an arbitrary
sequential interleaving of Get and Put. -/
inductive PoolOp where
  | getOp (t : String)
  | putOp (c : ConverterKind)

def applyPoolOp (p : ConverterPool) : PoolOp → ConverterPool
  | .getOp t => (p.get t).2
  | .putOp c => p.put c

def runPoolOps (ops : List PoolOp) (p : ConverterPool) : ConverterPool :=
  ops.foldl applyPoolOp p

/-- Put as claim C1 words it: the instance goes back to the idle pool of the
key the converter itself was created under when that queue has room, and is
discarded otherwise. Stated for comparison with ConverterPool.put. -/
def putOwnKeyClaimed (p : ConverterPool) (c : ConverterKind) : ConverterPool :=
  if (poolQueueOf p c.key).length < p.maxSize then
    { p with pools := alistSet p.pools c.key (poolQueueOf p c.key ++ [c]) }
  else p

/-! ## Pipeline builder -/

structure PipelineBuilder where
  pipeline : Pipeline
deriving DecidableEq, Repr

/-- NewPipelineBuilder. -/
def newPipelineBuilder : PipelineBuilder :=
  ⟨⟨[], ⟨false, false, [], false⟩, "", ""⟩⟩

def withInputPath (b : PipelineBuilder) (path : String) : PipelineBuilder :=
  ⟨{ b.pipeline with inputPath := path }⟩

def withOutputPath (b : PipelineBuilder) (path : String) : PipelineBuilder :=
  ⟨{ b.pipeline with outputPath := path }⟩

def withOptions (b : PipelineBuilder) (o : ConversionOptions) : PipelineBuilder :=
  ⟨{ b.pipeline with options := o }⟩

def withIndent (b : PipelineBuilder) : PipelineBuilder :=
  ⟨{ b.pipeline with options := { b.pipeline.options with indent := true } }⟩

def withPrettyPrint (b : PipelineBuilder) : PipelineBuilder :=
  ⟨{ b.pipeline with options := { b.pipeline.options with prettyPrint := true } }⟩

def withHeaders (b : PipelineBuilder) (hs : List String) : PipelineBuilder :=
  ⟨{ b.pipeline with options := { b.pipeline.options with headers := hs } }⟩

def withSaveIntermediarySteps (b : PipelineBuilder) : PipelineBuilder :=
  ⟨{ b.pipeline with options := { b.pipeline.options with saveIntermediarySteps := true } }⟩

def addConversionStep (b : PipelineBuilder) (fromFmt toFmt : FileFormat) : PipelineBuilder :=
  ⟨{ b.pipeline with steps := b.pipeline.steps ++ [⟨fromFmt, toFmt⟩] }⟩

def addCSVToJSON (b : PipelineBuilder) : PipelineBuilder := addConversionStep b FormatCSV FormatJSON

def addJSONToXML (b : PipelineBuilder) : PipelineBuilder := addConversionStep b FormatJSON FormatXML

def addXMLToYAML (b : PipelineBuilder) : PipelineBuilder := addConversionStep b FormatXML FormatYAML

/-- PipelineBuilder.Build: validation only, no file access in its type or
its body. -/
def build (b : PipelineBuilder) : Except String Pipeline :=
  if b.pipeline.steps.length = 0 then .error "pipeline must have at least one conversion step"
  else if b.pipeline.inputPath = "" then .error "input path is required"
  else if b.pipeline.outputPath = "" then .error "output path is required"
  else .ok b.pipeline

/-! ## Pipeline executor

The filesystem is a map from path to content plus a set of paths whose
writes fail and a flag for the steps-directory creation failing; the
outcome carries the chronological list of writes the run performed. The Go
loop appends each result to the slice in the outcome; the recursion below
returns the results of the remaining steps and conses the current one, which
yields the same final sequence. elapsedNanos stands for the wall-clock
nanoseconds from the start of Execute to its return, the quantity
time.Since(start).Nanoseconds() reads at the one place the code calls it. -/

structure FS where
  files : List (String × String)
  failWrite : List String
  mkdirStepsFails : Bool
deriving DecidableEq, Repr

def fsWrite (fs : FS) (path content : String) : FS :=
  { fs with files := alistSet fs.files path content }

/-- Side-file name of one intermediate stage, from the 0-based step index. -/
def stepFileName (i : Nat) (fromFmt toFmt : FileFormat) : String :=
  "steps/step_" ++ toString (i + 1) ++ "_" ++ fromFmt ++ "_to_" ++ toFmt ++ "." ++ toFmt

structure StepsOutcome where
  results : List ConversionResult
  success : Bool
  error : Option String
  writes : List (String × String)
  pool : ConverterPool
  fs : FS
deriving Repr

/-- Steps loop of PipelineExecutor.Execute, followed by the final write. -/
def execSteps (p : Pipeline) : List ConversionStep → Nat → ConverterPool → FS → String → StepsOutcome
  | [], _, pool, fs, cur =>
    if p.outputPath ∈ fs.failWrite then
      ⟨[], false, some "failed to write output file", [], pool, fs⟩
    else ⟨[], true, none, [(p.outputPath, cur)], pool, fsWrite fs p.outputPath cur⟩
  | step :: rest, i, pool, fs, cur =>
    let converterType := step.fromFmt ++ "-" ++ step.toFmt
    match pool.get converterType with
    | (.error e, pool1) =>
      ⟨[], false,
        some ("failed to get converter from pool for step " ++ toString (i + 1) ++ ": " ++ e),
        [], pool1, fs⟩
    | (.ok c, pool1) =>
      let cr := c.convert cur step.fromFmt step.toFmt
      let pool2 := pool1.put c
      match cr.error with
      | some e =>
        ⟨[cr], false,
          some ("step " ++ toString (i + 1) ++ " failed (" ++ step.fromFmt ++ "→" ++ step.toFmt ++ "): " ++ e),
          [], pool2, fs⟩
      | none =>
        if p.options.saveIntermediarySteps then
          let name := stepFileName i step.fromFmt step.toFmt
          if name ∈ fs.failWrite then
            ⟨[cr], false,
              some ("failed to save intermediary step " ++ toString (i + 1) ++ " to file"),
              [], pool2, fs⟩
          else
            let o := execSteps p rest (i + 1) pool2 (fsWrite fs name cr.data) cr.data
            ⟨cr :: o.results, o.success, o.error, (name, cr.data) :: o.writes, o.pool, o.fs⟩
        else
          let o := execSteps p rest (i + 1) pool2 fs cr.data
          ⟨cr :: o.results, o.success, o.error, o.writes, o.pool, o.fs⟩

structure ExecOutcome where
  result : PipelineResult
  pool : ConverterPool
  fs : FS
  writes : List (String × String)
deriving Repr

/-- PipelineExecutor.Execute. -/
def Execute (pool : ConverterPool) (fs : FS) (p : Pipeline) (elapsedNanos : Nat) : ExecOutcome :=
  if p.steps.length = 0 then
    ⟨⟨false, [], some "no conversion steps in pipeline", 0⟩, pool, fs, []⟩
  else
    match alistGet? fs.files p.inputPath with
    | none => ⟨⟨false, [], some "failed to read input file", 0⟩, pool, fs, []⟩
    | some inputData =>
      if p.options.saveIntermediarySteps ∧ fs.mkdirStepsFails then
        ⟨⟨false, [], some "failed to create steps directory", 0⟩, pool, fs, []⟩
      else
        let o := execSteps p p.steps 0 pool fs inputData
        ⟨⟨o.success, o.results, o.error, if o.success then (elapsedNanos : Int) else 0⟩,
          o.pool, o.fs, o.writes⟩

/-! ## Association-list lemmas -/

theorem alistGet?_alistSet {α : Type} (l : List (String × α)) (k : String) (v : α)
    (s : String) :
    alistGet? (alistSet l k v) s = if s = k then some v else alistGet? l s := by
  induction l with
  | nil =>
    by_cases h : s = k <;> simp [alistSet, alistGet?, h] <;> simp [Ne.symm h]
  | cons hd rest ih =>
    obtain ⟨k0, v0⟩ := hd
    by_cases h0 : k0 = k
    · subst h0
      by_cases hs : s = k0 <;> simp [alistSet, alistGet?, hs] <;> simp [Ne.symm hs]
    · by_cases hs : k0 = s
      · subst hs
        simp [alistSet, alistGet?, h0, Ne.symm h0]
      · simp [alistSet, alistGet?, h0, hs, ih]

theorem alistGet?_append_right {α : Type} (l : List (String × α)) (t : String) (x : α)
    (s : String) (h : alistGet? l t = none) :
    alistGet? (l ++ [(t, x)]) s = if s = t then some x else alistGet? l s := by
  induction l with
  | nil =>
    by_cases hs : s = t <;> simp [alistGet?, hs] <;> simp [Ne.symm hs]
  | cons hd rest ih =>
    obtain ⟨k0, v0⟩ := hd
    simp only [alistGet?] at h
    by_cases h0 : k0 = s
    · subst h0
      by_cases hts : k0 = t
      · subst hts; simp at h
      · simp [alistGet?, Ne.symm hts, hts]
    · by_cases hts : k0 = t
      · subst hts; simp at h
      · simp [hts] at h
        simp [alistGet?, h0, ih h]

/-! ## Pool lemmas: the state after one operation -/

theorem ensureKey_maxSize (p : ConverterPool) (t : String) :
    (p.ensureKey t).maxSize = p.maxSize := by
  unfold ConverterPool.ensureKey
  split <;> rfl

/-- After the first phase the queue of the requested key reads back as the
original queue (an unseen key reads back empty). -/
theorem ensureKey_pools_self (p : ConverterPool) (t : String) :
    alistGet? (p.ensureKey t).pools t = some (poolQueueOf p t) := by
  unfold ConverterPool.ensureKey poolQueueOf
  rcases h : alistGet? p.pools t with _ | q
  · simp [h, alistGet?_append_right _ _ _ _ h]
  · simp [h]

theorem ensureKey_pools_other (p : ConverterPool) (t s : String) (hst : s ≠ t) :
    alistGet? (p.ensureKey t).pools s = alistGet? p.pools s := by
  unfold ConverterPool.ensureKey
  rcases h : alistGet? p.pools t with _ | q
  · simp [h, alistGet?_append_right _ _ _ _ h, hst]
  · simp [h]

theorem ensureKey_created_self (p : ConverterPool) (t : String) :
    createdOf (p.ensureKey t) t =
      if (alistGet? p.pools t).isNone then 0 else createdOf p t := by
  unfold ConverterPool.ensureKey createdOf
  rcases h : alistGet? p.pools t with _ | q
  · simp [h, alistGet?_alistSet]
  · simp [h]

theorem ensureKey_created_other (p : ConverterPool) (t s : String) (hst : s ≠ t) :
    createdOf (p.ensureKey t) s = createdOf p s := by
  unfold ConverterPool.ensureKey createdOf
  rcases h : alistGet? p.pools t with _ | q
  · simp [h, alistGet?_alistSet, hst]
  · simp [h]

theorem putIntoFirst_none (m : Nat) (c : ConverterKind)
    (l : List (String × List ConverterKind))
    (h : ∀ kq ∈ l, m ≤ kq.2.length) : putIntoFirst m c l = none := by
  induction l with
  | nil => rfl
  | cons hd rest ih =>
    obtain ⟨k, q⟩ := hd
    have hh := h (k, q) (by simp)
    simp only [putIntoFirst]
    rw [if_neg (by simp at hh ⊢; omega)]
    rw [ih (fun kq hm => h kq (by simp [hm]))]

theorem putIntoFirst_isSome (m : Nat) (c : ConverterKind)
    (l : List (String × List ConverterKind))
    (h : ∃ kq ∈ l, kq.2.length < m) : (putIntoFirst m c l).isSome = true := by
  induction l with
  | nil => simp at h
  | cons hd rest ih =>
    obtain ⟨k, q⟩ := hd
    by_cases hq : q.length < m
    · simp [putIntoFirst, hq]
    · simp only [putIntoFirst, if_neg hq]
      obtain ⟨kq, hmem, hlt⟩ := h
      rcases List.mem_cons.mp hmem with hmem | hmem
      · subst hmem; simp at hlt; omega
      · have := ih ⟨kq, hmem, hlt⟩
        rcases hr : putIntoFirst m c rest with _ | l2
        · rw [hr] at this; simp at this
        · simp

theorem putIntoFirst_sum (m : Nat) (c : ConverterKind) :
    ∀ (l l2 : List (String × List ConverterKind)), putIntoFirst m c l = some l2 →
      (l2.map fun kq => kq.2.length).sum = (l.map fun kq => kq.2.length).sum + 1 := by
  intro l
  induction l with
  | nil => intro l2 h; simp [putIntoFirst] at h
  | cons hd rest ih =>
    obtain ⟨k, q⟩ := hd
    intro l2 h
    by_cases hq : q.length < m
    · simp only [putIntoFirst, if_pos hq] at h
      cases h
      simp
      omega
    · simp only [putIntoFirst, if_neg hq] at h
      rcases hr : putIntoFirst m c rest with _ | rest2
      · rw [hr] at h; cases h
      · rw [hr] at h
        cases h
        simp [ih rest2 hr]
        omega

theorem putIntoFirst_alistGet? (m : Nat) (c : ConverterKind) :
    ∀ (l l2 : List (String × List ConverterKind)), putIntoFirst m c l = some l2 →
      ∀ s, alistGet? l2 s = alistGet? l s ∨
        ∃ q, alistGet? l s = some q ∧ alistGet? l2 s = some (q ++ [c]) ∧ q.length < m := by
  intro l
  induction l with
  | nil => intro l2 h; simp [putIntoFirst] at h
  | cons hd rest ih =>
    obtain ⟨k, q⟩ := hd
    intro l2 h s
    by_cases hq : q.length < m
    · simp only [putIntoFirst, if_pos hq] at h
      cases h
      by_cases hs : k = s
      · subst hs
        exact Or.inr ⟨q, by simp [alistGet?], by simp [alistGet?], hq⟩
      · left; simp [alistGet?, hs]
    · simp only [putIntoFirst, if_neg hq] at h
      rcases hr : putIntoFirst m c rest with _ | rest2
      · rw [hr] at h; cases h
      · rw [hr] at h
        cases h
        by_cases hs : k = s
        · subst hs; left; simp [alistGet?]
        · simp only [alistGet?, if_neg hs]
          exact ih rest2 hr s

/-- Well-formedness a pool keeps through every operation: every idle queue
and every created counter is bounded by maxSize, and the two maps hold the
same keys. -/
def PoolWF (p : ConverterPool) : Prop :=
  (∀ t, (poolQueueOf p t).length ≤ p.maxSize) ∧
  (∀ t, createdOf p t ≤ p.maxSize) ∧
  (∀ t, (alistGet? p.pools t).isSome = (alistGet? p.created t).isSome)

theorem ensureKey_created_get (p : ConverterPool) (t s : String) :
    alistGet? (p.ensureKey t).created s =
      if (alistGet? p.pools t).isNone = true ∧ s = t then some 0
      else alistGet? p.created s := by
  unfold ConverterPool.ensureKey
  rcases h : alistGet? p.pools t with _ | q
  · by_cases hs : s = t <;> simp [h, alistGet?_alistSet, hs]
  · simp [h]

theorem ensureKey_poolWF (p : ConverterPool) (t : String) (h : PoolWF p) :
    PoolWF (p.ensureKey t) := by
  obtain ⟨hq, hc, ha⟩ := h
  refine ⟨fun s => ?_, fun s => ?_, fun s => ?_⟩
  · show ((alistGet? (p.ensureKey t).pools s).getD []).length ≤ (p.ensureKey t).maxSize
    rw [ensureKey_maxSize]
    by_cases hs : s = t
    · rw [hs, ensureKey_pools_self]
      exact hq t
    · rw [ensureKey_pools_other p t s hs]
      exact hq s
  · show (alistGet? (p.ensureKey t).created s).getD 0 ≤ (p.ensureKey t).maxSize
    rw [ensureKey_maxSize, ensureKey_created_get]
    split
    · simp
    · exact hc s
  · rw [ensureKey_created_get]
    by_cases hs : s = t
    · rw [hs, ensureKey_pools_self]
      rcases hp : alistGet? p.pools t with _ | q
      · rw [if_pos (by simp [hp, hs])]
        rfl
      · rw [if_neg (by simp [hp])]
        rw [← ha t, hp]
        rfl
    · rw [ensureKey_pools_other p t s hs, if_neg (by simp [hs])]
      exact ha s

/-- The second state a Get leaves behind, by cases on what it found. -/
theorem get_snd_cases (p : ConverterPool) (t : String) :
    (p.get t).2 = p.ensureKey t ∨
    (∃ c restQ, poolQueueOf p t = c :: restQ ∧
        (p.get t).2 = { p.ensureKey t with pools := alistSet (p.ensureKey t).pools t restQ }) ∨
    (poolQueueOf p t = [] ∧ createdOf (p.ensureKey t) t < p.maxSize ∧
        (p.get t).2 = { p.ensureKey t with
          created := alistSet (p.ensureKey t).created t (createdOf (p.ensureKey t) t + 1) }) := by
  unfold ConverterPool.get
  simp only [ensureKey_pools_self, Option.getD_some]
  rcases hq : poolQueueOf p t with _ | ⟨c, restQ⟩
  · by_cases hcnt : createdOf (p.ensureKey t) t < (p.ensureKey t).maxSize
    · rw [if_pos hcnt]
      rcases hcc : createConverter t with e | c2
      · left; rfl
      · right; right
        exact ⟨rfl, by rw [← ensureKey_maxSize p t]; exact hcnt, rfl⟩
    · rw [if_neg hcnt]
      left; rfl
  · right; left
    exact ⟨c, restQ, rfl, rfl⟩

theorem get_maxSize (p : ConverterPool) (t : String) :
    ((p.get t).2).maxSize = p.maxSize := by
  rcases get_snd_cases p t with h | ⟨c, restQ, _, h⟩ | ⟨_, _, h⟩ <;>
    rw [h] <;> exact ensureKey_maxSize p t

theorem get_poolWF (p : ConverterPool) (t : String) (h : PoolWF p) :
    PoolWF ((p.get t).2) := by
  obtain ⟨hq0, hc0, ha0⟩ := h
  obtain ⟨hq1, hc1, ha1⟩ := ensureKey_poolWF p t ⟨hq0, hc0, ha0⟩
  rcases get_snd_cases p t with heq | ⟨c, restQ, hqueue, heq⟩ | ⟨hqueue, hcnt, heq⟩
  · rw [heq]; exact ⟨hq1, hc1, ha1⟩
  · rw [heq]
    refine ⟨fun s => ?_, hc1, fun s => ?_⟩
    · show ((alistGet? (alistSet (p.ensureKey t).pools t restQ) s).getD []).length ≤
        (p.ensureKey t).maxSize
      rw [alistGet?_alistSet, ensureKey_maxSize]
      by_cases hs : s = t
      · rw [if_pos hs]
        have h2 := hq0 t
        rw [hqueue] at h2
        simp at h2 ⊢
        omega
      · rw [if_neg hs]
        have h2 := hq1 s
        rw [ensureKey_maxSize] at h2
        exact h2
    · show (alistGet? (alistSet (p.ensureKey t).pools t restQ) s).isSome =
        (alistGet? (p.ensureKey t).created s).isSome
      rw [alistGet?_alistSet]
      by_cases hs : s = t
      · rw [if_pos hs, hs, ← ha1 t, ensureKey_pools_self]
        rfl
      · rw [if_neg hs]
        exact ha1 s
  · rw [heq]
    refine ⟨hq1, fun s => ?_, fun s => ?_⟩
    · show (alistGet? (alistSet (p.ensureKey t).created t
          (createdOf (p.ensureKey t) t + 1)) s).getD 0 ≤ (p.ensureKey t).maxSize
      rw [alistGet?_alistSet, ensureKey_maxSize]
      by_cases hs : s = t
      · rw [if_pos hs]
        simp only [Option.getD_some]
        omega
      · rw [if_neg hs]
        have h2 := hc1 s
        rw [ensureKey_maxSize] at h2
        exact h2
    · show (alistGet? (p.ensureKey t).pools s).isSome =
        (alistGet? (alistSet (p.ensureKey t).created t
          (createdOf (p.ensureKey t) t + 1)) s).isSome
      rw [alistGet?_alistSet]
      by_cases hs : s = t
      · rw [if_pos hs, hs, ensureKey_pools_self]
        rfl
      · rw [if_neg hs]
        exact ha1 s

theorem put_created (p : ConverterPool) (c : ConverterKind) :
    (p.put c).created = p.created := by
  unfold ConverterPool.put
  rcases h : putIntoFirst p.maxSize c p.pools with _ | l2 <;> rfl

theorem put_maxSize (p : ConverterPool) (c : ConverterKind) :
    (p.put c).maxSize = p.maxSize := by
  unfold ConverterPool.put
  rcases h : putIntoFirst p.maxSize c p.pools with _ | l2 <;> rfl

theorem put_poolWF (p : ConverterPool) (c : ConverterKind) (h : PoolWF p) :
    PoolWF (p.put c) := by
  obtain ⟨hq, hc, ha⟩ := h
  unfold ConverterPool.put
  rcases hp : putIntoFirst p.maxSize c p.pools with _ | l2
  · exact ⟨hq, hc, ha⟩
  · refine ⟨fun s => ?_, hc, fun s => ?_⟩
    · show ((alistGet? l2 s).getD []).length ≤ p.maxSize
      rcases putIntoFirst_alistGet? p.maxSize c p.pools l2 hp s with heq | ⟨q, hold, hnew, hlt⟩
      · rw [heq]
        exact hq s
      · rw [hnew]
        simp
        omega
    · show (alistGet? l2 s).isSome = (alistGet? p.created s).isSome
      rcases putIntoFirst_alistGet? p.maxSize c p.pools l2 hp s with heq | ⟨q, hold, hnew, hlt⟩
      · rw [heq]
        exact ha s
      · rw [hnew, ← ha s, hold]
        rfl

theorem poolWF_new (m : Nat) : PoolWF (newConverterPool m) := by
  refine ⟨fun t => ?_, fun t => ?_, fun t => ?_⟩ <;>
    simp [newConverterPool, poolQueueOf, createdOf, alistGet?]

theorem applyPoolOp_poolWF (p : ConverterPool) (op : PoolOp) (h : PoolWF p) :
    PoolWF (applyPoolOp p op) := by
  cases op with
  | getOp t => exact get_poolWF p t h
  | putOp c => exact put_poolWF p c h

theorem applyPoolOp_maxSize (p : ConverterPool) (op : PoolOp) :
    (applyPoolOp p op).maxSize = p.maxSize := by
  cases op with
  | getOp t => exact get_maxSize p t
  | putOp c => exact put_maxSize p c

theorem runPoolOps_poolWF (ops : List PoolOp) :
    ∀ p : ConverterPool, PoolWF p → PoolWF (runPoolOps ops p) := by
  induction ops with
  | nil => intro p h; exact h
  | cons op rest ih =>
    intro p h
    exact ih (applyPoolOp p op) (applyPoolOp_poolWF p op h)

theorem runPoolOps_maxSize (ops : List PoolOp) :
    ∀ p : ConverterPool, (runPoolOps ops p).maxSize = p.maxSize := by
  induction ops with
  | nil => intro p; rfl
  | cons op rest ih =>
    intro p
    rw [runPoolOps, List.foldl_cons, ← runPoolOps, ih (applyPoolOp p op), applyPoolOp_maxSize]

/-! ## Claims about the converter implementations -/

/-- Claim C4: a CSV payload the reader delivers zero records for (empty
input, or only blank lines) converts to the explicit empty JSON array, with
no error and not the JSON null that marshaling the nil slice would give. -/
theorem csv_empty_records_give_empty_array (s : String)
    (h : csvReadAll s = .ok []) :
    csvToJSONConvert s FormatCSV FormatJSON =
      ⟨"[]", FormatJSON, none⟩ := by
  unfold csvToJSONConvert
  rw [if_neg (by simp [FormatCSV, FormatJSON]), h]

/-- Witness for C4 at the empty input. -/
theorem csv_empty_records_give_empty_array_witness :
    csvToJSONConvert "" FormatCSV FormatJSON = ⟨"[]", FormatJSON, none⟩ :=
  csv_empty_records_give_empty_array "" (by rfl)

/-- Claim C5: on the supported pair, the XML-to-YAML converter fails exactly
when the mxj decoding of the input fails (malformed XML is a hard failure),
and on success its output is the YAML serialization of the generic nested
mapping the input decoded to. The final two conjuncts pin the behavior on a
concrete malformed and a concrete well-formed document. -/
theorem xml_to_yaml_parses_then_serializes (s : String) :
    (∀ e, mxjNewMapXml s = .error e →
        xmlToYAMLConvert s FormatXML FormatYAML = ⟨"", "", some ("failed to parse XML: " ++ e)⟩) ∧
    (∀ m, mxjNewMapXml s = .ok m →
        xmlToYAMLConvert s FormatXML FormatYAML = ⟨yamlMarshal m, FormatYAML, none⟩) ∧
    mxjNewMapXml "<a><b></a>" = .error "XML syntax error: element <b> closed by </a>" ∧
    mxjNewMapXml "<a>hi</a>" = .ok (.objV [("a", .strV "hi")]) := by
  refine ⟨?_, ?_, by rfl, by rfl⟩
  · intro e he
    unfold xmlToYAMLConvert
    rw [if_neg (by simp [FormatXML, FormatYAML]), he]
  · intro m hm
    unfold xmlToYAMLConvert
    rw [if_neg (by simp [FormatXML, FormatYAML]), hm]

/-- Counterexample to claim C7 as stated: on a CSV input whose data record
has fewer cells than the header row, Convert does not succeed with
absent keys; the reader rejects the record with the wrong-number-of-fields
error and Convert returns an error result. -/
theorem csv_short_record_is_field_count_error :
    csvToJSONConvert "a,b\nx" FormatCSV FormatJSON =
      ⟨"", "", some "failed to read CSV: wrong number of fields"⟩ := by
  rfl

/-- Claim C7 as amended: every CSV input whose records include a data record
with fewer cells than the header row is rejected by the reader with the
wrong-number-of-fields error, so Convert returns that error result rather
than a mapping with absent keys. -/
theorem csv_short_record_convert_errors (s : String) (r : List String)
    (rs : List (List String))
    (h1 : csvRecords s = .ok (r :: rs))
    (h2 : ∃ x ∈ rs, x.length < r.length) :
    csvToJSONConvert s FormatCSV FormatJSON =
      ⟨"", "", some "failed to read CSV: wrong number of fields"⟩ := by
  have hall : rs.all (fun x => x.length = r.length) = false := by
    obtain ⟨x, hx, hlt⟩ := h2
    rcases hall : rs.all (fun x => x.length = r.length) with _ | _
    · rfl
    · exfalso
      have := List.all_eq_true.mp hall x hx
      simp only [decide_eq_true_eq] at this
      omega
  have hread : csvReadAll s = .error .fieldCount := by
    unfold csvReadAll
    rw [h1]
    simp [hall]
  unfold csvToJSONConvert
  rw [if_neg (by simp [FormatCSV, FormatJSON]), hread]
  rfl

/-- Witness for the amended C7 at a concrete short-record input. -/
theorem csv_short_record_convert_errors_witness :
    csvToJSONConvert "h1,h2\nv" FormatCSV FormatJSON =
      ⟨"", "", some "failed to read CSV: wrong number of fields"⟩ :=
  csv_short_record_convert_errors "h1,h2\nv" ["h1", "h2"] [["v"]] (by rfl)
    ⟨["v"], by simp, by decide⟩

/-- Claim C9: each converter implementation, asked for any pair other than
the single pair it supports, answers the unsupported-conversion error with
empty data, whatever the input payload holds. -/
theorem mismatched_pair_is_unsupported (s : String) (f g : FileFormat) :
    ((f ≠ FormatCSV ∨ g ≠ FormatJSON) →
      csvToJSONConvert s f g = ⟨"", "", some ("unsupported conversion: " ++ f ++ " to " ++ g)⟩) ∧
    ((f ≠ FormatJSON ∨ g ≠ FormatXML) →
      jsonToXMLConvert s f g = ⟨"", "", some ("unsupported conversion: " ++ f ++ " to " ++ g)⟩) ∧
    ((f ≠ FormatXML ∨ g ≠ FormatYAML) →
      xmlToYAMLConvert s f g = ⟨"", "", some ("unsupported conversion: " ++ f ++ " to " ++ g)⟩) ∧
    ((f ≠ FormatJSON ∨ g ≠ FormatCSV) →
      jsonToCSVConvert s f g = ⟨"", "", some "unsupported conversion"⟩) := by
  refine ⟨fun h => ?_, fun h => ?_, fun h => ?_, fun h => ?_⟩
  · unfold csvToJSONConvert; rw [if_pos h]
  · unfold jsonToXMLConvert; rw [if_pos h]
  · unfold xmlToYAMLConvert; rw [if_pos h]
  · unfold jsonToCSVConvert; rw [if_pos h]

/-- Claim C10: Build fails exactly when the step list or one of the two
paths is missing, each failure naming its field, checked in the order
steps, input path, output path; otherwise Build returns the configured
pipeline. Build is a pure function of the builder state: no filesystem
value occurs in its type, so no file access can precede the validation
error. -/
theorem build_validates_exactly_missing_fields (b : PipelineBuilder) :
    (b.pipeline.steps = [] →
      build b = .error "pipeline must have at least one conversion step") ∧
    (b.pipeline.steps ≠ [] → b.pipeline.inputPath = "" →
      build b = .error "input path is required") ∧
    (b.pipeline.steps ≠ [] → b.pipeline.inputPath ≠ "" → b.pipeline.outputPath = "" →
      build b = .error "output path is required") ∧
    (b.pipeline.steps ≠ [] → b.pipeline.inputPath ≠ "" → b.pipeline.outputPath ≠ "" →
      build b = .ok b.pipeline) ∧
    ((∃ e, build b = .error e) ↔
      (b.pipeline.steps = [] ∨ b.pipeline.inputPath = "" ∨ b.pipeline.outputPath = "")) := by
  unfold build
  refine ⟨fun h1 => ?_, fun h1 h2 => ?_, fun h1 h2 h3 => ?_, fun h1 h2 h3 => ?_, ?_⟩
  · rw [if_pos (by simp [h1])]
  · rw [if_neg (by simp [h1]), if_pos h2]
  · rw [if_neg (by simp [h1]), if_neg h2, if_pos h3]
  · rw [if_neg (by simp [h1]), if_neg h2, if_neg h3]
  · constructor
    · intro ⟨e, he⟩
      by_contra hc
      push_neg at hc
      rw [if_neg (by simp [hc.1]), if_neg hc.2.1, if_neg hc.2.2] at he
      cases he
    · intro h
      rcases h with h | h | h
      · exact ⟨_, by rw [if_pos (by simp [h])]⟩
      · by_cases hs : b.pipeline.steps.length = 0
        · exact ⟨_, by rw [if_pos hs]⟩
        · exact ⟨_, by rw [if_neg hs, if_pos h]⟩
      · by_cases hs : b.pipeline.steps.length = 0
        · exact ⟨_, by rw [if_pos hs]⟩
        · by_cases hi : b.pipeline.inputPath = ""
          · exact ⟨_, by rw [if_neg hs, if_pos hi]⟩
          · exact ⟨_, by rw [if_neg hs, if_neg hi, if_pos h]⟩

/-! ## Claims about the executor -/

/-- Claim C6 as amended: the measured duration reaches the result only on
the success path; every failing Execute returns before the assignment, so a
failed PipelineResult reports duration 0 whatever the elapsed wall-clock
time was. -/
theorem duration_set_only_on_success (pool : ConverterPool) (fs : FS) (p : Pipeline) (t : Nat) :
    ((Execute pool fs p t).result.success = true →
      (Execute pool fs p t).result.duration = (t : Int)) ∧
    ((Execute pool fs p t).result.success = false →
      (Execute pool fs p t).result.duration = 0) := by
  unfold Execute
  split
  · simp
  · split
    · simp
    · split
      · simp
      · refine ⟨fun h => ?_, fun h => ?_⟩
        · simp only at h
          simp [h]
        · simp only at h
          simp [h]

/-- Counterexample to claim C6 as stated: a run that fails at step one with
elapsed wall-clock 5 nanoseconds reports duration 0, not the measured
elapsed time. -/
theorem duration_missing_on_failure :
    (Execute (newConverterPool 2) ⟨[("in.csv", "\"bad")], [], false⟩
        ⟨[⟨FormatCSV, FormatJSON⟩], ⟨false, false, [], false⟩, "in.csv", "out.json"⟩
        5).result.success = false ∧
    (Execute (newConverterPool 2) ⟨[("in.csv", "\"bad")], [], false⟩
        ⟨[⟨FormatCSV, FormatJSON⟩], ⟨false, false, [], false⟩, "in.csv", "out.json"⟩
        5).result.duration = 0 := by
  constructor <;> rfl

/-- Execute reads the pipeline options only through the intermediary-steps
flag, so two pipelines agreeing on output path and on that flag run their
steps identically. -/
theorem execSteps_options_congr (p1 p2 : Pipeline)
    (hout : p1.outputPath = p2.outputPath)
    (hsave : p1.options.saveIntermediarySteps = p2.options.saveIntermediarySteps) :
    ∀ (steps : List ConversionStep) (i : Nat) (pool : ConverterPool) (fs : FS) (cur : String),
      execSteps p1 steps i pool fs cur = execSteps p2 steps i pool fs cur := by
  intro steps
  induction steps with
  | nil =>
    intro i pool fs cur
    simp [execSteps, hout]
  | cons step rest ih =>
    intro i pool fs cur
    unfold execSteps
    rcases hget : pool.get (step.fromFmt ++ "-" ++ step.toFmt) with ⟨r, pool1⟩
    cases r with
    | error e => simp [hget]
    | ok c =>
      simp only [hget]
      rcases hcr : (c.convert cur step.fromFmt step.toFmt).error with _ | e
      · simp only [hcr, hsave]
        rcases hs2 : p2.options.saveIntermediarySteps with _ | _
        · simp only [ih]
        · simp only [ih]
      · simp only [hcr]

/-- Every run outcome is unchanged when the indent, pretty-print and headers
options are replaced by their defaults: no converter receives the options
and the executor reads only the intermediary-steps flag. -/
theorem options_do_not_reach_output (pool : ConverterPool) (fs : FS) (t : Nat)
    (steps : List ConversionStep) (i pp save : Bool) (hs : List String) (inP outP : String) :
    Execute pool fs ⟨steps, ⟨i, pp, hs, save⟩, inP, outP⟩ t =
    Execute pool fs ⟨steps, ⟨false, false, [], save⟩, inP, outP⟩ t := by
  unfold Execute
  simp only [execSteps_options_congr ⟨steps, ⟨i, pp, hs, save⟩, inP, outP⟩
      ⟨steps, ⟨false, false, [], save⟩, inP, outP⟩ rfl rfl]

/-- Claim C8 as amended: the indent, prettyPrint and headers options are
recorded but never read by the executor or any converter, so a run with
them set produces exactly the outcome (result, final filesystem, pool and
writes) of the run with them unset; only saveIntermediarySteps can change
behavior. -/
theorem format_options_never_observable (pool : ConverterPool) (fs : FS) (p : Pipeline)
    (t : Nat) (i pp : Bool) (hs : List String) :
    Execute pool fs { p with options := ⟨i, pp, hs, p.options.saveIntermediarySteps⟩ } t =
      Execute pool fs p t := by
  obtain ⟨steps, ⟨i0, pp0, hs0, save⟩, inP, outP⟩ := p
  exact (options_do_not_reach_output pool fs t steps i pp save hs inP outP).trans
    (options_do_not_reach_output pool fs t steps i0 pp0 save hs0 inP outP).symm

/-- Counterexample to claim C8 as stated: no pipeline, filesystem or input
exists on which setting indent, prettyPrint or headers changes the run
outcome, because nothing ever reads those options. -/
theorem no_two_run_dependence_on_format_options :
    ¬ ∃ (pool : ConverterPool) (fs : FS) (p : Pipeline) (t : Nat) (i pp : Bool) (hs : List String),
        Execute pool fs { p with options := ⟨i, pp, hs, p.options.saveIntermediarySteps⟩ } t ≠
          Execute pool fs p t := by
  rintro ⟨pool, fs, p, t, i, pp, hs, hne⟩
  obtain ⟨steps, ⟨i0, pp0, hs0, save⟩, inP, outP⟩ := p
  exact hne ((options_do_not_reach_output pool fs t steps i pp save hs inP outP).trans
    (options_do_not_reach_output pool fs t steps i0 pp0 save hs0 inP outP).symm)

/-! ## Claims about the pool -/

/-- Counterexample to claim C1 as stated: after Get, Get, Put and Get calls
on a pool of maxSize one, the csv-json queue is full, and Put of a further
csv-json converter does not discard it as the claim requires — the scan over
the pools map stores it in the xml-yaml queue (the only other pool, so every
map iteration order agrees), leaving a csv-json instance pooled under the
xml-yaml key and total Size 2 where the claimed own-key discard leaves
Size 1. -/
theorem put_stores_in_foreign_pool :
    (poolQueueOf (runPoolOps [PoolOp.getOp "csv-json", PoolOp.getOp "csv-json",
        PoolOp.putOp ConverterKind.csvJson, PoolOp.getOp "xml-yaml"]
        (newConverterPool 1)) "csv-json").length = 1 ∧
    (runPoolOps [PoolOp.getOp "csv-json", PoolOp.getOp "csv-json",
        PoolOp.putOp ConverterKind.csvJson, PoolOp.getOp "xml-yaml"]
        (newConverterPool 1)).maxSize = 1 ∧
    ((runPoolOps [PoolOp.getOp "csv-json", PoolOp.getOp "csv-json",
        PoolOp.putOp ConverterKind.csvJson, PoolOp.getOp "xml-yaml"]
        (newConverterPool 1)).put ConverterKind.csvJson ≠
      putOwnKeyClaimed (runPoolOps [PoolOp.getOp "csv-json", PoolOp.getOp "csv-json",
        PoolOp.putOp ConverterKind.csvJson, PoolOp.getOp "xml-yaml"]
        (newConverterPool 1)) ConverterKind.csvJson) ∧
    poolQueueOf ((runPoolOps [PoolOp.getOp "csv-json", PoolOp.getOp "csv-json",
        PoolOp.putOp ConverterKind.csvJson, PoolOp.getOp "xml-yaml"]
        (newConverterPool 1)).put ConverterKind.csvJson) "xml-yaml" =
      [ConverterKind.csvJson] ∧
    ((runPoolOps [PoolOp.getOp "csv-json", PoolOp.getOp "csv-json",
        PoolOp.putOp ConverterKind.csvJson, PoolOp.getOp "xml-yaml"]
        (newConverterPool 1)).put ConverterKind.csvJson).size = 2 ∧
    (putOwnKeyClaimed (runPoolOps [PoolOp.getOp "csv-json", PoolOp.getOp "csv-json",
        PoolOp.putOp ConverterKind.csvJson, PoolOp.getOp "xml-yaml"]
        (newConverterPool 1)) ConverterKind.csvJson).size = 1 := by
  decide

/-- Claim C1 as amended: Put appends the instance to the first pool with
spare capacity in the scan order of the pools map, regardless of the key the
converter was created under, and silently discards it only when every pool
is full; being a total function of the state it never blocks or errors, and
after any sequence of Get and Put calls the idle count of every key stays
within maxSize. -/
theorem put_first_fit_and_size_bounded (maxSize : Nat) (ops : List PoolOp) (t : String) :
    (poolQueueOf (runPoolOps ops (newConverterPool maxSize)) t).length ≤ maxSize ∧
    (∀ (p : ConverterPool) (c : ConverterKind),
        (∀ kq ∈ p.pools, p.maxSize ≤ kq.2.length) → p.put c = p) ∧
    (∀ (p : ConverterPool) (c : ConverterKind),
        (∃ kq ∈ p.pools, kq.2.length < p.maxSize) → (p.put c).size = p.size + 1) := by
  refine ⟨?_, ?_, ?_⟩
  · have hwf := runPoolOps_poolWF ops (newConverterPool maxSize) (poolWF_new maxSize)
    have hms := runPoolOps_maxSize ops (newConverterPool maxSize)
    have := hwf.1 t
    rw [hms] at this
    exact this
  · intro p c hfull
    unfold ConverterPool.put
    rw [putIntoFirst_none p.maxSize c p.pools hfull]
  · intro p c hroom
    unfold ConverterPool.put
    have hs := putIntoFirst_isSome p.maxSize c p.pools hroom
    rcases hp : putIntoFirst p.maxSize c p.pools with _ | l2
    · rw [hp] at hs; cases hs
    · show (l2.map (fun kq => kq.2.length)).sum = (p.pools.map (fun kq => kq.2.length)).sum + 1
      exact putIntoFirst_sum p.maxSize c p.pools l2 hp

/-- Claim C2: after any sequence of Get and Put calls the created count of
every key stays within maxSize, and once a registered key has reached the
cap with an empty idle queue, a further Get neither fails nor counts: it
hands back a fresh factory instance and leaves the pool state unchanged. -/
theorem created_capped_with_uncounted_fallback (maxSize : Nat) (ops : List PoolOp)
    (t : String) (c : ConverterKind) :
    createdOf (runPoolOps ops (newConverterPool maxSize)) t ≤ maxSize ∧
    (1 ≤ maxSize → createConverter t = .ok c →
      createdOf (runPoolOps ops (newConverterPool maxSize)) t = maxSize →
      poolQueueOf (runPoolOps ops (newConverterPool maxSize)) t = [] →
      (runPoolOps ops (newConverterPool maxSize)).get t =
        (.ok c, runPoolOps ops (newConverterPool maxSize))) := by
  have hwf := runPoolOps_poolWF ops (newConverterPool maxSize) (poolWF_new maxSize)
  have hms := runPoolOps_maxSize ops (newConverterPool maxSize)
  constructor
  · have := hwf.2.1 t
    rw [hms] at this
    exact this
  · intro h1 hreg hcap hq
    set p := runPoolOps ops (newConverterPool maxSize) with hpdef
    have hsome : alistGet? p.pools t = some [] := by
      rcases hget : alistGet? p.pools t with _ | q
      · exfalso
        have halign := hwf.2.2 t
        rw [hget] at halign
        rcases hcget : alistGet? p.created t with _ | n
        · unfold createdOf at hcap
          rw [hcget] at hcap
          simp at hcap
          omega
        · rw [hcget] at halign
          simp at halign
      · unfold poolQueueOf at hq
        rw [hget] at hq
        simp at hq
        rw [hq]
    have hek : p.ensureKey t = p := by
      unfold ConverterPool.ensureKey
      rw [hsome]
      rfl
    unfold ConverterPool.get
    simp only [hek, hsome, Option.getD_some]
    rw [if_neg (by rw [hcap, hms]; show ¬maxSize < maxSize; omega), hreg]

/-! ## Failure behavior of the steps loop -/

/-- What one run of the steps loop guarantees: no more results than steps,
every result but the last error-free, on success a full complement of
results and no error, and on failure an error message plus only
intermediate-artifact writes, each belonging to a step whose conversion
completed and named by its index and format pair. -/
def StepsSpec (steps : List ConversionStep) (i : Nat) (o : StepsOutcome) : Prop :=
  o.results.length ≤ steps.length ∧
  (∀ x ∈ o.results.dropLast, x.error = none) ∧
  (o.success = true → o.error = none ∧ o.results.length = steps.length) ∧
  (o.success = false → o.error.isSome = true ∧
    ∀ w ∈ o.writes, ∃ j, ∃ hj : j < steps.length, j < o.results.length ∧
      w.1 = stepFileName (i + j) (steps.get ⟨j, hj⟩).fromFmt (steps.get ⟨j, hj⟩).toFmt)

/-- One successfully converted step in front of a loop run that satisfies
its spec satisfies the spec for the extended step list, whether or not the
step persisted its intermediate artifact. -/
theorem stepsSpec_cons (step : ConversionStep) (rest : List ConversionStep) (i : Nat)
    (cr : ConversionResult) (hcr : cr.error = none) (o : StepsOutcome)
    (h : StepsSpec rest (i + 1) o) (w0 : List (String × String))
    (hw0 : w0 = [] ∨ w0 = [(stepFileName i step.fromFmt step.toFmt, cr.data)])
    (pool2 : ConverterPool) (fs2 : FS) :
    StepsSpec (step :: rest) i
      ⟨cr :: o.results, o.success, o.error, w0 ++ o.writes, pool2, fs2⟩ := by
  obtain ⟨h1, h2, h3, h4⟩ := h
  refine ⟨by simp; omega, ?_, ?_, ?_⟩
  · intro x hx
    rcases hres : o.results with _ | ⟨y, ys⟩
    · rw [hres] at hx
      simp at hx
    · rw [hres] at hx
      simp only [List.dropLast] at hx
      rcases List.mem_cons.mp hx with hx | hx
      · rw [hx]; exact hcr
      · have := h2 x
        rw [hres] at this
        exact this (by simpa [List.dropLast] using hx)
  · intro hs
    obtain ⟨he, hlen⟩ := h3 hs
    exact ⟨he, by simp [hlen]⟩
  · intro hs
    obtain ⟨he, hw⟩ := h4 hs
    refine ⟨he, ?_⟩
    intro w hwmem
    rcases List.mem_append.mp hwmem with hmem | hmem
    · rcases hw0 with h0 | h0
      · rw [h0] at hmem
        simp at hmem
      · rw [h0] at hmem
        simp only [List.mem_singleton] at hmem
        refine ⟨0, by simp, by simp, ?_⟩
        rw [hmem]
        rfl
    · obtain ⟨j, hj, hjr, heq⟩ := hw w hmem
      refine ⟨j + 1, by simp; omega, by simp; omega, ?_⟩
      have hidx : i + 1 + j = i + (j + 1) := by omega
      rw [← hidx]
      exact heq

theorem execSteps_spec (p : Pipeline) :
    ∀ (steps : List ConversionStep) (i : Nat) (pool : ConverterPool) (fs : FS) (cur : String),
      StepsSpec steps i (execSteps p steps i pool fs cur) := by
  intro steps
  induction steps with
  | nil =>
    intro i pool fs cur
    unfold execSteps StepsSpec
    by_cases hw : p.outputPath ∈ fs.failWrite
    · rw [if_pos hw]
      exact ⟨by simp, by simp, by simp, fun _ => ⟨rfl, by simp⟩⟩
    · rw [if_neg hw]
      exact ⟨by simp, by simp, fun _ => ⟨rfl, rfl⟩, by simp⟩
  | cons step rest ih =>
    intro i pool fs cur
    unfold execSteps
    rcases hget : pool.get (step.fromFmt ++ "-" ++ step.toFmt) with ⟨r, pool1⟩
    cases r with
    | error e =>
      simp only [hget]
      exact ⟨by simp, by simp, by simp, fun _ => ⟨rfl, by simp⟩⟩
    | ok c =>
      simp only [hget]
      rcases hcr : (c.convert cur step.fromFmt step.toFmt).error with _ | e
      · simp only [hcr]
        by_cases hsave : p.options.saveIntermediarySteps = true
        · rw [if_pos hsave]
          by_cases hw : stepFileName i step.fromFmt step.toFmt ∈ fs.failWrite
          · rw [if_pos hw]
            refine ⟨by simp, by simp, by simp, fun _ => ⟨rfl, by simp⟩⟩
          · rw [if_neg hw]
            exact stepsSpec_cons step rest i _ hcr _
              (ih (i + 1) (pool1.put c)
                (fsWrite fs (stepFileName i step.fromFmt step.toFmt)
                  (c.convert cur step.fromFmt step.toFmt).data)
                (c.convert cur step.fromFmt step.toFmt).data)
              [(stepFileName i step.fromFmt step.toFmt,
                  (c.convert cur step.fromFmt step.toFmt).data)]
              (Or.inr rfl) _ _
        · rw [if_neg hsave]
          exact stepsSpec_cons step rest i _ hcr _
            (ih (i + 1) (pool1.put c) fs (c.convert cur step.fromFmt step.toFmt).data)
            [] (Or.inl rfl) _ _
      · simp only [hcr]
        exact ⟨by simp, by simp, by simp, fun _ => ⟨rfl, by simp⟩⟩

/-- Counterexample to claim C3 as stated: a pipeline whose only step asks
for the unregistered csv-to-csv converter fails at converter acquisition,
and Execute returns success false with an empty results sequence — the
failing step contributes no result entry, where the claim requires the
results to contain the failing step result. No bytes are written. -/
theorem acquisition_failure_appends_no_result :
    (Execute (newConverterPool 2) ⟨[("in.csv", "name,age\nJohn,25")], [], false⟩
        ⟨[⟨FormatCSV, FormatCSV⟩], ⟨false, false, [], false⟩, "in.csv", "out.json"⟩
        42).result.success = false ∧
    (Execute (newConverterPool 2) ⟨[("in.csv", "name,age\nJohn,25")], [], false⟩
        ⟨[⟨FormatCSV, FormatCSV⟩], ⟨false, false, [], false⟩, "in.csv", "out.json"⟩
        42).result.results = [] ∧
    (Execute (newConverterPool 2) ⟨[("in.csv", "name,age\nJohn,25")], [], false⟩
        ⟨[⟨FormatCSV, FormatCSV⟩], ⟨false, false, [], false⟩, "in.csv", "out.json"⟩
        42).result.error =
      some "failed to get converter from pool for step 1: unsupported converter type: csv-csv" ∧
    (Execute (newConverterPool 2) ⟨[("in.csv", "name,age\nJohn,25")], [], false⟩
        ⟨[⟨FormatCSV, FormatCSV⟩], ⟨false, false, [], false⟩, "in.csv", "out.json"⟩
        42).writes = [] := by
  exact ⟨rfl, rfl, rfl, rfl⟩

/-- Claim C3 as amended: a failing Execute stops at the failure — it
collects at most one conversion result per step in order, every result
before the last is error-free, the failure carries an error message, every
byte written by a failing run is an intermediate artifact of a step whose
conversion completed (named by step index and format pair), and so, when no
intermediate artifact path equals the output path, a failing run writes
nothing to outputPath. A failure before the conversion of a step (input read or
converter acquisition) contributes no result entry. -/
theorem execute_stops_and_truncates (pool : ConverterPool) (fs : FS) (p : Pipeline) (t : Nat) :
    ((Execute pool fs p t).result.results.length ≤ p.steps.length) ∧
    (∀ x ∈ (Execute pool fs p t).result.results.dropLast, x.error = none) ∧
    ((Execute pool fs p t).result.success = false →
      (Execute pool fs p t).result.error.isSome = true) ∧
    ((Execute pool fs p t).result.success = false →
      ∀ w ∈ (Execute pool fs p t).writes, ∃ j, ∃ hj : j < p.steps.length,
        j < (Execute pool fs p t).result.results.length ∧
        w.1 = stepFileName j (p.steps.get ⟨j, hj⟩).fromFmt (p.steps.get ⟨j, hj⟩).toFmt) ∧
    ((Execute pool fs p t).result.success = false →
      (∀ j (hj : j < p.steps.length),
        stepFileName j (p.steps.get ⟨j, hj⟩).fromFmt (p.steps.get ⟨j, hj⟩).toFmt ≠ p.outputPath) →
      ∀ w ∈ (Execute pool fs p t).writes, w.1 ≠ p.outputPath) := by
  unfold Execute
  split
  · exact ⟨by simp, by simp, fun _ => rfl, fun _ => by simp, fun _ _ => by simp⟩
  · split
    · exact ⟨by simp, by simp, fun _ => rfl, fun _ => by simp, fun _ _ => by simp⟩
    · rename_i inputData heq
      split
      · exact ⟨by simp, by simp, fun _ => rfl, fun _ => by simp, fun _ _ => by simp⟩
      · obtain ⟨h1, h2, h3, h4⟩ := execSteps_spec p p.steps 0 pool fs inputData
        refine ⟨h1, h2, fun hf => (h4 hf).1, fun hf w hw => ?_, fun hf halias w hw => ?_⟩
        · obtain ⟨j, hj, hjr, heqw⟩ := (h4 hf).2 w hw
          rw [Nat.zero_add] at heqw
          exact ⟨j, hj, hjr, heqw⟩
        · obtain ⟨j, hj, hjr, heqw⟩ := (h4 hf).2 w hw
          rw [Nat.zero_add] at heqw
          rw [heqw]
          exact halias j hj

end TmpsLab2
